import Mathlib

/-!
Verification of the gold-rush digging game (src/src/App.tsx).

JavaScript numbers are embedded as rationals; Math.random draws are
modelled as an oracle stream `rand : Nat → ℚ` whose values lie in [0, 1),
consumed in call order. React component state is made explicit: each
component is a record plus pure transition functions, and the event flow
(click on a block or nugget, frame tick, timer fire) becomes explicit
state-passing on a combined game state.
-/

namespace GoldRush

/-- A 3-dimensional vector of JS numbers, embedded as rationals. -/
abbrev Vec3 : Type := ℚ × ℚ × ℚ

/-- An integer grid coordinate triple (x, y, z). -/
abbrev IPos : Type := Int × Int × Int

/-- Template-string id of a block: the source builds the string
"x-y-z" from the three coordinates. -/
def idString (p : IPos) : String :=
  toString p.1 ++ "-" ++ toString p.2.1 ++ "-" ++ toString p.2.2

/-- Numeric value of a list of ASCII digit characters. -/
def digitsToNat (cs : List Char) : Nat := cs.foldl (fun n c => n * 10 + (c.toNat - 48)) 0

/-- Read one integer (optional leading minus sign, then a maximal nonempty
digit run) from the front of a character list; returns the value and the
unread rest. Used only to invert idString on the grid domain. -/
def parseIntChars (cs : List Char) : Option (Int × List Char) :=
  match cs with
  | '-' :: rest =>
      let ds := rest.takeWhile Char.isDigit
      if ds.isEmpty then none else some (-(digitsToNat ds : Int), rest.dropWhile Char.isDigit)
  | _ =>
      let ds := cs.takeWhile Char.isDigit
      if ds.isEmpty then none else some ((digitsToNat ds : Int), cs.dropWhile Char.isDigit)

/-- Read back a triple from an "x-y-z" id string: integer, separator,
integer, separator, integer, end of input. A left inverse of idString on
the grid domain, witnessing that distinct triples get distinct ids. -/
def parseId (s : String) : Option IPos :=
  match parseIntChars s.toList with
  | none => none
  | some (x, r1) =>
    match r1 with
    | '-' :: r2 =>
      match parseIntChars r2 with
      | none => none
      | some (y, r3) =>
        match r3 with
        | '-' :: r4 =>
          match parseIntChars r4 with
          | none => none
          | some (z, r5) => if r5.isEmpty then some (x, y, z) else none
        | _ => none
    | _ => none

/-- goldChance of the grid init effect: depth * 0.03 + 0.02. -/
def goldChance (depth : ℚ) : ℚ := depth * (3 / 100) + 2 / 100

/-- One entry of the blocks collection owned by GameScene. -/
structure Block where
  pos : IPos
  id : String
  hasGold : Bool
  depth : Int
  deriving Repr, DecidableEq

/-- One entry of the nuggets collection owned by GameScene. -/
structure Nugget where
  pos : Vec3
  id : Nat
  deriving Repr, DecidableEq

/-- One entry of the particles collection owned by GameScene. -/
structure Particle where
  id : Nat
  pos : Vec3
  vel : Vec3
  deriving Repr, DecidableEq

/-- The x loop bounds of the grid init effect: x from -4 to 4. -/
def xRange : List Int := (List.range 9).map (fun i => (i : Int) - 4)

/-- The y loop bounds of the grid init effect: y from -5 to 0. -/
def yRange : List Int := (List.range 6).map (fun i => (i : Int) - 5)

/-- The z loop bounds of the grid init effect: z from -4 to 4. -/
def zRange : List Int := (List.range 9).map (fun i => (i : Int) - 4)

/-- The coordinate triples visited by the triple nested loop of the grid
init effect, in loop order (x outermost, z innermost). -/
def gridTriples : List IPos :=
  xRange.flatMap (fun x => yRange.flatMap (fun y => zRange.map (fun z => (x, y, z))))

/-- The block built for one loop iteration: depth = -y, hasGold decided by
one Math.random draw compared against goldChance. `k` is the index of the
draw in the oracle stream (one draw per cell, in creation order). -/
def mkBlock (rand : Nat → ℚ) (k : Nat) (p : IPos) : Block :=
  { pos := p
    id := idString p
    hasGold := decide (rand k < goldChance (-(p.2.1 : ℚ)))
    depth := -p.2.1 }

/-- The grid init effect (useEffect with empty deps, run once): builds the
whole blocks list, one Bernoulli draw per cell in loop order. -/
def initBlocks (rand : Nat → ℚ) : List Block :=
  gridTriples.enum.map (fun q => mkBlock rand q.1 q.2)

/-- GameScene collection state: the three lists plus the two id counters
(nuggetIdRef, particleIdRef). -/
structure Scene where
  blocks : List Block
  nuggets : List Nugget
  particles : List Particle
  nuggetId : Nat
  particleId : Nat
  deriving Repr, DecidableEq

/-- App score state: gold, digs, combo, and the pending combo-decay
deadline (comboTimerRef), an absolute time in ms or none. -/
structure AppState where
  gold : Nat
  digs : Nat
  combo : Nat
  deadline : Option ℚ
  deriving Repr, DecidableEq

/-- The combined state of GameScene and App. -/
structure Game where
  scene : Scene
  app : AppState
  deriving Repr, DecidableEq

/-- The combo decay window passed to setTimeout: 2000 ms. -/
def comboDecay : ℚ := 2000

/-- App.handleGoldCollect at time t: bonus = floor(combo / 3) + 1 from the
pre-increment combo, gold += bonus, combo += 1, and the combo timer is
cleared and restarted to fire at t + 2000. -/
def handleGoldCollect (a : AppState) (t : ℚ) : AppState :=
  { a with
    gold := a.gold + (a.combo / 3 + 1)
    combo := a.combo + 1
    deadline := some (t + comboDecay) }

/-- App.handleDig: digs += 1. -/
def handleAppDig (a : AppState) : AppState :=
  { a with digs := a.digs + 1 }

/-- The particle batch spawned by GameScene.handleDig: 8 particles at
pos + (0, 0.5, 0); particle i consumes draws 3i, 3i+1, 3i+2 for
((random - 0.5) * 8, random * 6 + 2, (random - 0.5) * 8); ids come from
the post-incremented particle counter starting at ctr. -/
def mkParticles (pos : IPos) (ctr : Nat) (rand : Nat → ℚ) : List Particle :=
  (List.range 8).map (fun i =>
    { id := ctr + i
      pos := ((pos.1 : ℚ), (pos.2.1 : ℚ) + 1 / 2, (pos.2.2 : ℚ))
      vel := ((rand (3 * i) - 1 / 2) * 8,
              rand (3 * i + 1) * 6 + 2,
              (rand (3 * i + 2) - 1 / 2) * 8) })

/-- GameScene.handleDig on the scene state: append the 8 particles, filter
out the block whose id is derived from the position, and when hasGold
append one nugget at pos + (0, 0.5, 0) with the next nugget id. -/
def handleDig (s : Scene) (pos : IPos) (hasGold : Bool) (rand : Nat → ℚ) : Scene :=
  { s with
    particles := s.particles ++ mkParticles pos s.particleId rand
    particleId := s.particleId + 8
    blocks := s.blocks.filter (fun b => b.id != idString pos)
    nuggets := if hasGold then
        s.nuggets ++ [{ pos := ((pos.1 : ℚ), (pos.2.1 : ℚ) + 1 / 2, (pos.2.2 : ℚ)),
                        id := s.nuggetId }]
      else s.nuggets
    nuggetId := if hasGold then s.nuggetId + 1 else s.nuggetId }

/-- GameScene.handleCollectGold on the scene state: filter out nuggets
whose id matches. -/
def handleCollectGold (s : Scene) (id : Nat) : Scene :=
  { s with nuggets := s.nuggets.filter (fun n => n.id != id) }

/-- A post-initialization game event: a finished excavation (position,
hasGold, with its oracle stream for the particle velocities) or a nugget
collection arriving at time t. -/
inductive Op where
  | dig : IPos → Bool → (Nat → ℚ) → Op
  | collect : Nat → ℚ → Op

/-- One event applied to the combined state: a dig runs
GameScene.handleDig and bubbles onDig to App.handleDig; a collection runs
GameScene.handleCollectGold and bubbles onGoldCollect to
App.handleGoldCollect. -/
def applyOp (g : Game) : Op → Game
  | Op.dig pos hasGold rand =>
      { scene := handleDig g.scene pos hasGold rand
        app := handleAppDig g.app }
  | Op.collect id t =>
      { scene := handleCollectGold g.scene id
        app := handleGoldCollect g.app t }

/-- The initial game state right after the grid init effect has run. -/
def initGame (rand : Nat → ℚ) : Game :=
  { scene := { blocks := initBlocks rand
               nuggets := []
               particles := []
               nuggetId := 0
               particleId := 0 }
    app := { gold := 0, digs := 0, combo := 0, deadline := none } }

/-- GroundBlock.handleClick on the dugLevel state: ignored unless
dugLevel < 3; otherwise increments, and fires onDig exactly when the
pre-click level was 2. Returns (new level, whether onDig fired). -/
def blockHandleClick (dugLevel : Nat) : Nat × Bool :=
  if dugLevel < 3 then (dugLevel + 1, dugLevel == 2) else (dugLevel, false)

/-- GroundBlock renders nothing once dugLevel reaches 3. -/
def blockRenders (dugLevel : Nat) : Bool := dugLevel < 3

/-- n successive clicks on a ground block starting from dugLevel 0:
returns the final dugLevel and how many of the clicks fired onDig. -/
def blockClickSeq : Nat → Nat × Nat
  | 0 => (0, 0)
  | n + 1 =>
    let s := blockClickSeq n
    let c := blockHandleClick s.1
    (c.1, s.2 + if c.2 then 1 else 0)

/-- GoldNugget.handleClick on the collected flag: ignored when already
collected; otherwise sets collected and schedules one onCollect callback.
Returns (new collected flag, whether a callback was scheduled). -/
def nuggetHandleClick (collected : Bool) : Bool × Bool :=
  if collected then (collected, false) else (true, true)

/-- The setTimeout delay before a clicked nugget reports onCollect: 300 ms. -/
def collectDelay : ℚ := 300

/-- n successive clicks on a gold nugget starting uncollected: returns the
final collected flag and how many onCollect callbacks were scheduled. -/
def nuggetClickSeq : Nat → Bool × Nat
  | 0 => (false, 0)
  | n + 1 =>
    let s := nuggetClickSeq n
    let c := nuggetHandleClick s.1
    (c.1, s.2 + if c.2 then 1 else 0)

/-- DirtParticle per-frame local state. -/
structure PState where
  pos : Vec3
  vel : Vec3
  opacity : ℚ
  deriving Repr, DecidableEq

/-- DirtParticle useFrame body for one frame of length dt: position
integrates the old velocity, gravity pulls velocity.y down by 15 dt, and
opacity drops by 2 dt clamped at 0. -/
def dirtParticleFrame (p : PState) (dt : ℚ) : PState :=
  { pos := (p.pos.1 + p.vel.1 * dt, p.pos.2.1 + p.vel.2.1 * dt, p.pos.2.2 + p.vel.2.2 * dt)
    vel := (p.vel.1, p.vel.2.1 - dt * 15, p.vel.2.2)
    opacity := max 0 (p.opacity - dt * 2) }

/-- A dirt particle renders nothing once opacity has reached 0. -/
def particleRenders (p : PState) : Bool := 0 < p.opacity

/-- The combo timer firing at time t: if a deadline is pending and due,
combo resets to 0 and the timer is spent; otherwise nothing happens. -/
def fireIfDue (a : AppState) (t : ℚ) : AppState :=
  match a.deadline with
  | some d => if d ≤ t then { a with combo := 0, deadline := none } else a
  | none => a

/-- Run a list of collection events given by their arrival times, letting
the pending combo timer fire first whenever it is due by the time the
collection arrives. -/
def runCollects (a : AppState) : List ℚ → AppState
  | [] => a
  | t :: ts => runCollects (handleGoldCollect (fireIfDue a t) t) ts

/-- n successive gold collections with no intervening timer fire (all at
time 0; the decay window never matters for the combo and gold fields). -/
def collectN (a : AppState) : Nat → AppState
  | 0 => a
  | n + 1 => handleGoldCollect (collectN a n) 0

/-- Well-formedness of the nugget id supply: every live nugget id is below
the counter, and live ids are pairwise distinct. -/
def NuggetIdsOk (g : Game) : Prop :=
  (∀ n ∈ g.scene.nuggets, n.id < g.scene.nuggetId) ∧
    (g.scene.nuggets.map Nugget.id).Nodup

/-- A concrete game state holding a single live nugget with id 0, the
counter already advanced past it. -/
def oneNuggetGame : Game :=
  { scene := { blocks := []
               nuggets := [{ pos := (0, 0, 0), id := 0 }]
               particles := []
               nuggetId := 1
               particleId := 0 }
    app := { gold := 0, digs := 0, combo := 0, deadline := none } }

/-! ## Helper lemmas -/

lemma blockClickSeq_succ_eq (n : Nat) :
    blockClickSeq (n + 1) =
      ((blockHandleClick (blockClickSeq n).1).1,
       (blockClickSeq n).2 + if (blockHandleClick (blockClickSeq n).1).2 then 1 else 0) := rfl

lemma blockClickSeq_level (n : Nat) : (blockClickSeq n).1 = min n 3 := by
  induction n with
  | zero => rfl
  | succ k ih =>
    rw [blockClickSeq_succ_eq, ih]
    unfold blockHandleClick
    split <;> simp <;> omega

lemma blockClickSeq_fix (n : Nat) : blockClickSeq (n + 3) = (3, 1) := by
  induction n with
  | zero => rfl
  | succ k ih =>
    show blockClickSeq (k + 3 + 1) = (3, 1)
    rw [blockClickSeq_succ_eq, ih]
    rfl

lemma nuggetClickSeq_succ_eq (n : Nat) :
    nuggetClickSeq (n + 1) =
      ((nuggetHandleClick (nuggetClickSeq n).1).1,
       (nuggetClickSeq n).2 + if (nuggetHandleClick (nuggetClickSeq n).1).2 then 1 else 0) := rfl

lemma nuggetClickSeq_fix (n : Nat) : nuggetClickSeq (n + 1) = (true, 1) := by
  induction n with
  | zero => rfl
  | succ k ih =>
    rw [nuggetClickSeq_succ_eq, ih]
    rfl

lemma filter_ne_id_length (l : List Nugget) (id : Nat)
    (hnodup : (l.map Nugget.id).Nodup) (hmem : id ∈ l.map Nugget.id) :
    (l.filter (fun n => n.id != id)).length + 1 = l.length := by
  induction l with
  | nil => simp at hmem
  | cons a l ih =>
    rw [List.map_cons, List.nodup_cons] at hnodup
    rw [List.map_cons] at hmem
    by_cases h : a.id = id
    · have hfil : l.filter (fun n => n.id != id) = l := by
        refine List.filter_eq_self.mpr ?_
        intro n hn
        rw [bne_iff_ne]
        intro he
        exact hnodup.1 (List.mem_map.2 ⟨n, hn, he.trans h.symm⟩)
      have hpa : (a.id != id) = false := by simp [h]
      simp only [List.filter_cons, hpa, Bool.false_eq_true, if_false, hfil, List.length_cons]
    · have hpa : (a.id != id) = true := by simp [h]
      have hmem' : id ∈ l.map Nugget.id := by
        rcases List.mem_cons.1 hmem with he | hm
        · exact absurd he.symm h
        · exact hm
      have hlen := ih hnodup.2 hmem'
      simp only [List.filter_cons, hpa, if_true, List.length_cons]
      omega

lemma runCollects_fast (ts : List ℚ) : ∀ (a : AppState) (prev : ℚ),
    a.deadline = some (prev + comboDecay) →
    List.Chain (fun s t => s ≤ t ∧ t < s + comboDecay) prev ts →
    (runCollects a ts).combo = a.combo + ts.length := by
  induction ts with
  | nil =>
    intro a prev _ _
    rfl
  | cons t ts ih =>
    intro a prev hd hch
    obtain ⟨⟨hle, hlt⟩, hch'⟩ := List.chain_cons.1 hch
    have hfire : fireIfDue a t = a := by
      simp only [fireIfDue, hd]
      rw [if_neg (not_le.2 hlt)]
    show (runCollects (handleGoldCollect (fireIfDue a t) t) ts).combo = _
    rw [hfire]
    have := ih (handleGoldCollect a t) t rfl hch'
    rw [this]
    show a.combo + 1 + ts.length = a.combo + (ts.length + 1)
    omega

set_option maxRecDepth 40000 in
lemma gridTriples_eq_product : gridTriples = xRange ×ˢ (yRange ×ˢ zRange) := by decide

lemma xRange_nodup : xRange.Nodup := by decide

lemma yRange_nodup : yRange.Nodup := by decide

lemma zRange_nodup : zRange.Nodup := by decide

lemma gridTriples_nodup : gridTriples.Nodup := by
  rw [gridTriples_eq_product]
  exact xRange_nodup.product (yRange_nodup.product zRange_nodup)

set_option maxRecDepth 40000 in
lemma parseId_idString : ∀ p ∈ gridTriples, parseId (idString p) = some p := by decide

set_option maxRecDepth 40000 in
lemma gridTriples_length : gridTriples.length = 486 := by decide

set_option maxRecDepth 40000 in
lemma gridTriples_bounds : ∀ p ∈ gridTriples,
    -4 ≤ p.1 ∧ p.1 ≤ 4 ∧ -5 ≤ p.2.1 ∧ p.2.1 ≤ 0 ∧ -4 ≤ p.2.2 ∧ p.2.2 ≤ 4 := by decide

lemma initBlocks_map_pos (rand : Nat → ℚ) : (initBlocks rand).map Block.pos = gridTriples := by
  rw [initBlocks, List.map_map]
  have h : (Block.pos ∘ fun q : Nat × IPos => mkBlock rand q.1 q.2) = Prod.snd := rfl
  rw [h, List.enum_map_snd]

lemma initBlocks_map_id (rand : Nat → ℚ) :
    (initBlocks rand).map Block.id = gridTriples.map idString := by
  rw [initBlocks, List.map_map]
  have h : (Block.id ∘ fun q : Nat × IPos => mkBlock rand q.1 q.2) = (idString ∘ Prod.snd) := rfl
  rw [h, ← List.map_map, List.enum_map_snd]

lemma initBlocks_ids_nodup (rand : Nat → ℚ) : ((initBlocks rand).map Block.id).Nodup := by
  rw [initBlocks_map_id]
  refine List.Nodup.map_on ?_ gridTriples_nodup
  intro x hx y hy hxy
  have h1 := parseId_idString x hx
  have h2 := parseId_idString y hy
  rw [hxy, h2] at h1
  exact (Option.some.inj h1).symm

lemma initBlocks_getElem? (rand : Nat → ℚ) (i : Nat) :
    (initBlocks rand)[i]? = (gridTriples[i]?).map (fun q => mkBlock rand i q) := by
  rw [initBlocks, List.getElem?_map, List.getElem?_enum]
  cases gridTriples[i]? <;> rfl

/-! ## Claim theorems -/

/-- C1: a click on a ground block is a no-op at dugLevel 3 and otherwise
increments dugLevel by 1, so over any click sequence from level 0 the
level is min n 3 (monotone, within [0,3]); onDig fires exactly once, on
the third click (the one taking the level from 2 to 3); and the block
renders exactly while fewer than 3 clicks have happened, hence is
permanently non-renderable afterwards. -/
theorem groundBlock_click_spec (n : Nat) :
    blockHandleClick 3 = (3, false) ∧
    (blockClickSeq n).1 = min n 3 ∧
    (blockClickSeq n).1 ≤ (blockClickSeq (n + 1)).1 ∧
    (blockClickSeq n).2 = (if 3 ≤ n then 1 else 0) ∧
    ((blockClickSeq (n + 1)).2 = (blockClickSeq n).2 + if n = 2 then 1 else 0) ∧
    blockRenders (blockClickSeq n).1 = decide (n < 3) := by
  refine ⟨rfl, blockClickSeq_level n, ?_, ?_, ?_, ?_⟩
  · rw [blockClickSeq_level, blockClickSeq_level]; omega
  · rcases Nat.lt_or_ge n 3 with h | h
    · interval_cases n <;> decide
    · obtain ⟨m, rfl⟩ := Nat.exists_eq_add_of_le h
      rw [Nat.add_comm, blockClickSeq_fix]
      simp
  · rw [blockClickSeq_succ_eq]
    rcases Nat.lt_or_ge n 3 with h | h
    · interval_cases n <;> decide
    · obtain ⟨m, rfl⟩ := Nat.exists_eq_add_of_le h
      rw [Nat.add_comm, blockClickSeq_fix]
      have : ¬(3 + m = 2) := by omega
      simp [blockHandleClick, this]
  · rw [blockClickSeq_level]
    unfold blockRenders
    exact decide_eq_decide.mpr (by omega)

/-- C3: the grid init loop produces exactly 486 blocks, one per triple of
gridTriples (x in [-4,4], y in [-5,0], z in [-4,4]), with pairwise
distinct id strings "x-y-z", depth = -y, and hasGold decided by the single
Math.random draw of creation order index i compared against goldChance of
the depth; blocks are only ever filtered afterwards, so a block record,
its hasGold flag included, is never recomputed by later events. -/
theorem grid_init_spec (rand : Nat → ℚ) :
    (initBlocks rand).length = 486 ∧
    ((initBlocks rand).map Block.id).Nodup ∧
    (initBlocks rand).map Block.pos = gridTriples ∧
    (∀ b ∈ initBlocks rand, b.id = idString b.pos ∧ b.depth = -b.pos.2.1 ∧
      -4 ≤ b.pos.1 ∧ b.pos.1 ≤ 4 ∧ -5 ≤ b.pos.2.1 ∧ b.pos.2.1 ≤ 0 ∧
      -4 ≤ b.pos.2.2 ∧ b.pos.2.2 ≤ 4) ∧
    (∀ i : Nat, (initBlocks rand)[i]? = (gridTriples[i]?).map (fun q => mkBlock rand i q)) ∧
    (∀ i : Nat, ∀ q : IPos, gridTriples[i]? = some q →
      ((initBlocks rand)[i]?).map Block.hasGold
        = some (decide (rand i < goldChance (-(q.2.1 : ℚ))))) ∧
    (∀ (g : Game) (op : Op) (b : Block),
      b ∈ (applyOp g op).scene.blocks → b ∈ g.scene.blocks) := by
  refine ⟨?_, initBlocks_ids_nodup rand, initBlocks_map_pos rand, ?_, initBlocks_getElem? rand,
    ?_, ?_⟩
  · rw [initBlocks, List.length_map, List.enum_length, gridTriples_length]
  · intro b hb
    have hpos : b.pos ∈ gridTriples := by
      rw [← initBlocks_map_pos rand]
      exact List.mem_map_of_mem Block.pos hb
    have hbounds := gridTriples_bounds b.pos hpos
    rw [initBlocks] at hb
    obtain ⟨q, _, rfl⟩ := List.mem_map.1 hb
    exact ⟨rfl, rfl, hbounds.1, hbounds.2.1, hbounds.2.2.1, hbounds.2.2.2.1,
      hbounds.2.2.2.2.1, hbounds.2.2.2.2.2⟩
  · intro i q hq
    rw [initBlocks_getElem? rand i, hq]
    rfl
  · intro g op b h
    cases op with
    | dig pos hg rand2 => exact List.mem_of_mem_filter h
    | collect id t => exact h

set_option maxRecDepth 40000 in
/-- Witness for C3 at the constant oracle rand = 2: the grid has 486
blocks; the block of creation index 0 sits at (-4, -5, -4), has depth 5
and id "-4--5--4", and its hasGold flag is the draw 2 compared against
goldChance 5 = 0.17, hence false. -/
theorem grid_init_spec_witness :
    (initBlocks (fun _ => 2)).length = 486 ∧
    gridTriples[0]? = some ((-4 : Int), (-5 : Int), (-4 : Int)) ∧
    (mkBlock (fun _ => 2) 0 ((-4 : Int), (-5 : Int), (-4 : Int))).depth = 5 ∧
    (mkBlock (fun _ => 2) 0 ((-4 : Int), (-5 : Int), (-4 : Int))).id = "-4--5--4" ∧
    ((initBlocks (fun _ => 2))[0]?).map Block.hasGold = some false := by
  obtain ⟨h1, _, _, h4, h5, h6, _⟩ := grid_init_spec (fun _ => 2)
  have hq : gridTriples[0]? = some ((-4 : Int), (-5 : Int), (-4 : Int)) := by decide
  have hget : (initBlocks (fun _ => 2))[0]?
      = some (mkBlock (fun _ => 2) 0 ((-4 : Int), (-5 : Int), (-4 : Int))) := by
    rw [h5 0, hq]
    rfl
  have hmem : mkBlock (fun _ => 2) 0 ((-4 : Int), (-5 : Int), (-4 : Int))
      ∈ initBlocks (fun _ => 2) := List.getElem?_mem hget
  have hb := h4 _ hmem
  refine ⟨h1, hq, ?_, ?_, ?_⟩
  · rw [hb.2.1]; rfl
  · rw [hb.1]; rfl
  · rw [h6 0 _ hq]
    exact congrArg some (decide_eq_false (by norm_num [goldChance]))

/-- C2: on every gold collection the bonus added to gold is
floor(combo / 3) + 1 computed from the pre-increment combo, and combo then
increases by exactly 1; six collections starting from combo 0 with no
decay produce the bonuses 1, 1, 1, 2, 2, 2. -/
theorem goldCollect_bonus_spec (a : AppState) (t : ℚ) :
    (handleGoldCollect a t).gold = a.gold + (a.combo / 3 + 1) ∧
    (handleGoldCollect a t).combo = a.combo + 1 ∧
    ((List.range 6).map (fun k => (collectN ⟨0, 0, 0, none⟩ k).combo / 3 + 1)) =
      [1, 1, 1, 2, 2, 2] := by
  refine ⟨rfl, rfl, ?_⟩
  rfl

/-- Counterexample to C4 as stated: Math.random may return 0, and with the
(legitimate) all-zero draw stream every spawned particle has horizontal
velocity (0 - 0.5) * 8 = -4, which is not in the open interval (-4, 4)
the claim asserts; the code's range is the half-open [-4, 4). -/
theorem dig_velocity_cex :
    (∀ n : Nat, 0 ≤ (fun _ : Nat => (0 : ℚ)) n ∧ (fun _ : Nat => (0 : ℚ)) n < 1) ∧
    (∃ p ∈ (applyOp (initGame fun _ => 0)
        (Op.dig (0, 0, 0) false fun _ => 0)).scene.particles,
      ¬(-4 < p.vel.1 ∧ p.vel.1 < 4)) := by
  constructor
  · intro n
    constructor <;> norm_num
  · refine ⟨{ id := 0 + 0
              pos := (((0 : Int) : ℚ), ((0 : Int) : ℚ) + 1 / 2, ((0 : Int) : ℚ))
              vel := (((0 : ℚ) - 1 / 2) * 8, (0 : ℚ) * 6 + 2, ((0 : ℚ) - 1 / 2) * 8) }, ?_, ?_⟩
    · show _ ∈ mkParticles (0, 0, 0) 0 (fun _ => 0)
      exact List.mem_map.2 ⟨0, List.mem_range.2 (by omega), rfl⟩
    · intro h
      have : ((0 : ℚ) - 1 / 2) * 8 = -4 := by norm_num
      rw [this] at h
      exact absurd h.1 (by norm_num)

/-- C4 (amended: the horizontal velocity components lie in the half-open
interval [-4, 4), not the open interval (-4, 4)): an excavation event
increments digs by exactly 1, appends exactly 8 particles at
position + (0, 0.5, 0) with horizontal velocity components in [-4, 4) and
vertical component in [2, 8), removes from the block collection exactly
the block whose id is derived from the position, and leaves the nugget
collection unchanged when hasGold is false. -/
theorem dig_effects_spec (g : Game) (pos : IPos) (hasGold : Bool) (rand : Nat → ℚ)
    (hr : ∀ n, 0 ≤ rand n ∧ rand n < 1) :
    (applyOp g (Op.dig pos hasGold rand)).app.digs = g.app.digs + 1 ∧
    (applyOp g (Op.dig pos hasGold rand)).scene.particles
      = g.scene.particles ++ mkParticles pos g.scene.particleId rand ∧
    (mkParticles pos g.scene.particleId rand).length = 8 ∧
    (∀ p ∈ mkParticles pos g.scene.particleId rand,
      p.pos = ((pos.1 : ℚ), (pos.2.1 : ℚ) + 1 / 2, (pos.2.2 : ℚ)) ∧
      -4 ≤ p.vel.1 ∧ p.vel.1 < 4 ∧ 2 ≤ p.vel.2.1 ∧ p.vel.2.1 < 8 ∧
      -4 ≤ p.vel.2.2 ∧ p.vel.2.2 < 4) ∧
    (applyOp g (Op.dig pos hasGold rand)).scene.blocks
      = g.scene.blocks.filter (fun b => b.id != idString pos) ∧
    (∀ b : Block, b ∈ (applyOp g (Op.dig pos hasGold rand)).scene.blocks ↔
      b ∈ g.scene.blocks ∧ b.id ≠ idString pos) ∧
    (hasGold = false → (applyOp g (Op.dig pos hasGold rand)).scene.nuggets = g.scene.nuggets) := by
  refine ⟨rfl, rfl, rfl, ?_, rfl, ?_, ?_⟩
  · intro p hp
    rw [mkParticles] at hp
    obtain ⟨i, _, rfl⟩ := List.mem_map.1 hp
    dsimp only
    obtain ⟨h1a, h1b⟩ := hr (3 * i)
    obtain ⟨h2a, h2b⟩ := hr (3 * i + 1)
    obtain ⟨h3a, h3b⟩ := hr (3 * i + 2)
    exact ⟨rfl, by linarith, by linarith, by linarith, by linarith, by linarith, by linarith⟩
  · intro b
    rw [show (applyOp g (Op.dig pos hasGold rand)).scene.blocks
          = g.scene.blocks.filter (fun b => b.id != idString pos) from rfl]
    rw [List.mem_filter, bne_iff_ne]
  · intro h
    subst h
    rfl

/-- Witness for C4 at the constant draw 1/2 from the initial state: the
draw stream is valid, digs goes from 0 to 1, 8 particles are spawned, and
no nugget appears. -/
theorem dig_effects_spec_witness :
    (∀ n : Nat, 0 ≤ (fun _ : Nat => (1 : ℚ) / 2) n ∧ (fun _ : Nat => (1 : ℚ) / 2) n < 1) ∧
    (applyOp (initGame fun _ => 1 / 2) (Op.dig (0, 0, 0) false fun _ => 1 / 2)).app.digs = 1 ∧
    (mkParticles (0, 0, 0) 0 (fun _ => 1 / 2)).length = 8 ∧
    (applyOp (initGame fun _ => 1 / 2) (Op.dig (0, 0, 0) false fun _ => 1 / 2)).scene.nuggets
      = [] := by
  have hr : ∀ n : Nat, 0 ≤ (fun _ : Nat => (1 : ℚ) / 2) n ∧ (fun _ : Nat => (1 : ℚ) / 2) n < 1 :=
    fun _ => ⟨by norm_num, by norm_num⟩
  obtain ⟨h1, _, h3, _, _, _, h7⟩ :=
    dig_effects_spec (initGame fun _ => 1 / 2) (0, 0, 0) false (fun _ => 1 / 2) hr
  refine ⟨hr, ?_, h3, ?_⟩
  · rw [h1]
    rfl
  · rw [h7 rfl]
    rfl

/-- C5: an excavation event with hasGold = true appends exactly one nugget
at position + (0, 0.5, 0) whose id is the current counter, and increments
the counter; the id supply is well formed initially and after every event,
so the fresh id differs from every live nugget id and all nugget ids ever
issued are pairwise distinct. -/
theorem dig_gold_nugget_spec (g : Game) (pos : IPos) (rand : Nat → ℚ) :
    (applyOp g (Op.dig pos true rand)).scene.nuggets
      = g.scene.nuggets ++ [{ pos := ((pos.1 : ℚ), (pos.2.1 : ℚ) + 1 / 2, (pos.2.2 : ℚ))
                              id := g.scene.nuggetId }] ∧
    (applyOp g (Op.dig pos true rand)).scene.nuggetId = g.scene.nuggetId + 1 ∧
    NuggetIdsOk (initGame rand) ∧
    (∀ (g' : Game) (op : Op), NuggetIdsOk g' → NuggetIdsOk (applyOp g' op)) ∧
    (NuggetIdsOk g → g.scene.nuggetId ∉ g.scene.nuggets.map Nugget.id) := by
  refine ⟨rfl, rfl, ⟨?_, List.nodup_nil⟩, ?_, ?_⟩
  · intro n hn
    exact absurd hn (List.not_mem_nil n)
  · intro g' op ⟨hbound, hnodup⟩
    cases op with
    | dig pos2 hg rand2 =>
      cases hg with
      | false => exact ⟨hbound, hnodup⟩
      | true =>
        constructor
        · intro n hn
          rcases List.mem_append.1 hn with h | h
          · exact Nat.lt_succ_of_lt (hbound n h)
          · rw [List.mem_singleton.1 h]
            exact Nat.lt_succ_self _
        · show (List.map Nugget.id (g'.scene.nuggets ++ _)).Nodup
          rw [List.map_append]
          rw [List.nodup_append]
          refine ⟨hnodup, List.nodup_singleton _, ?_⟩
          intro a ha hb
          have hab : a = g'.scene.nuggetId := by simpa using hb
          subst hab
          obtain ⟨n, hn, hid⟩ := List.mem_map.1 ha
          exact absurd hid (Nat.ne_of_lt (hbound n hn))
    | collect id t =>
      constructor
      · intro n hn
        exact hbound n (List.mem_of_mem_filter hn)
      · exact hnodup.sublist (List.Sublist.map Nugget.id (List.filter_sublist _))
  · rintro ⟨hbound, _⟩ hmem
    obtain ⟨n, hn, hid⟩ := List.mem_map.1 hmem
    exact absurd hid (Nat.ne_of_lt (hbound n hn))

/-- Witness for C5: from the initial state (well-formed id supply, shown
by the theorem itself) a gold dig preserves well-formedness, and the
counter 0 is not among the (empty) live ids. -/
theorem dig_gold_nugget_spec_witness :
    NuggetIdsOk (initGame fun _ => 0) ∧
    NuggetIdsOk (applyOp (initGame fun _ => 0) (Op.dig (0, 0, 0) true fun _ => 0)) ∧
    (initGame fun _ => 0).scene.nuggetId ∉ (initGame fun _ => 0).scene.nuggets.map Nugget.id := by
  obtain ⟨_, _, h3, h4, _⟩ := dig_gold_nugget_spec (initGame fun _ => 0) (0, 0, 0) (fun _ => 0)
  obtain ⟨_, _, h3b, _, h5b⟩ := dig_gold_nugget_spec (initGame fun _ => 0) (0, 0, 0) (fun _ => 0)
  exact ⟨h3, h4 _ _ h3b, h5b h3b⟩

/-- C6 (code bug): the owner never removes particles. Every game event
either strictly appends to the particles collection (a dig) or leaves it
untouched (a collection); there is no operation that removes a particle,
so a particle whose opacity has reached 0 stays in the active collection
forever, contradicting the claimed exactly-once removal. -/
theorem particles_never_removed (g : Game) (op : Op) :
    ∃ tail, (applyOp g op).scene.particles = g.scene.particles ++ tail := by
  cases op with
  | dig pos hg rand => exact ⟨mkParticles pos g.scene.particleId rand, rfl⟩
  | collect id t => exact ⟨[], (List.append_nil _).symm⟩

/-- C7: a click on an uncollected nugget sets collected and schedules one
onCollect callback; a click on a collected nugget schedules nothing; over
any click sequence the collected flag rises false to true at most once and
exactly min n 1 callbacks are scheduled; the owner then removes exactly
the one nugget with that id (ids being distinct) and notifies the
gold-collect counter. -/
theorem nugget_collect_spec (g : Game) (id : Nat) (t : ℚ) (n : Nat)
    (hnodup : (g.scene.nuggets.map Nugget.id).Nodup)
    (hmem : id ∈ g.scene.nuggets.map Nugget.id) :
    nuggetHandleClick true = (true, false) ∧
    nuggetHandleClick false = (true, true) ∧
    (nuggetClickSeq n).2 = min n 1 ∧
    (nuggetClickSeq n).1 = decide (0 < n) ∧
    (applyOp g (Op.collect id t)).scene.nuggets.length + 1 = g.scene.nuggets.length ∧
    id ∉ (applyOp g (Op.collect id t)).scene.nuggets.map Nugget.id ∧
    (applyOp g (Op.collect id t)).app.gold = g.app.gold + (g.app.combo / 3 + 1) ∧
    collectDelay = 300 := by
  refine ⟨rfl, rfl, ?_, ?_, ?_, ?_, rfl, rfl⟩
  · cases n with
    | zero => rfl
    | succ k =>
      rw [nuggetClickSeq_fix]
      simp
  · cases n with
    | zero => rfl
    | succ k =>
      rw [nuggetClickSeq_fix]
      simp
  · exact filter_ne_id_length g.scene.nuggets id hnodup hmem
  · intro hin
    obtain ⟨m, hm, hid⟩ := List.mem_map.1 hin
    have := List.mem_filter.1 hm
    rw [bne_iff_ne] at this
    exact this.2 hid

/-- Witness for C7 on a game with one live nugget of id 0: the id list [0]
is duplicate-free and contains 0, and collecting id 0 shrinks the nugget
collection from one entry to none. -/
theorem nugget_collect_spec_witness :
    (oneNuggetGame.scene.nuggets.map Nugget.id).Nodup ∧
    0 ∈ oneNuggetGame.scene.nuggets.map Nugget.id ∧
    (applyOp oneNuggetGame (Op.collect 0 0)).scene.nuggets.length + 1
      = oneNuggetGame.scene.nuggets.length := by
  have h1 : (oneNuggetGame.scene.nuggets.map Nugget.id).Nodup := List.nodup_singleton 0
  have h2 : 0 ∈ oneNuggetGame.scene.nuggets.map Nugget.id := List.mem_singleton.2 rfl
  exact ⟨h1, h2, (nugget_collect_spec oneNuggetGame 0 0 0 h1 h2).2.2.2.2.1⟩

/-- C8: a collection restarts the decay timer to fire 2000 ms later,
replacing any pending deadline; a due timer firing resets combo to 0;
while collections keep arriving with gaps below the decay window no timer
ever fires and combo grows by 1 per collection; and a gap of at least the
window lets the timer fire, so the next collection starts again from
combo 0. -/
theorem combo_decay_spec :
    (∀ (a : AppState) (t : ℚ), (handleGoldCollect a t).deadline = some (t + comboDecay)) ∧
    (∀ (a : AppState) (d t : ℚ), a.deadline = some d → d ≤ t →
      fireIfDue a t = { a with combo := 0, deadline := none }) ∧
    (∀ (a : AppState) (t : ℚ), a.deadline = none → fireIfDue a t = a) ∧
    (∀ (a : AppState) (t0 : ℚ) (ts : List ℚ), a.deadline = none →
      List.Chain (fun s t => s ≤ t ∧ t < s + comboDecay) t0 ts →
      (runCollects a (t0 :: ts)).combo = a.combo + ts.length + 1) ∧
    (∀ (a : AppState) (t0 t1 : ℚ), a.deadline = none → t0 + comboDecay ≤ t1 →
      (runCollects a [t0, t1]).combo = 1) := by
  have hnone : ∀ (a : AppState) (t : ℚ), a.deadline = none → fireIfDue a t = a := by
    intro a t h
    simp only [fireIfDue, h]
  refine ⟨fun a t => rfl, ?_, hnone, ?_, ?_⟩
  · intro a d t hd hle
    simp only [fireIfDue, hd]
    rw [if_pos hle]
  · intro a t0 ts h0 hch
    show (runCollects (handleGoldCollect (fireIfDue a t0) t0) ts).combo = _
    rw [hnone a t0 h0]
    have := runCollects_fast ts (handleGoldCollect a t0) t0 rfl hch
    rw [this]
    show a.combo + 1 + ts.length = a.combo + ts.length + 1
    omega
  · intro a t0 t1 h0 hgap
    show (runCollects (handleGoldCollect (fireIfDue a t0) t0) [t1]).combo = 1
    rw [hnone a t0 h0]
    show (runCollects
      (handleGoldCollect (fireIfDue (handleGoldCollect a t0) t1) t1) []).combo = 1
    have hfire : fireIfDue (handleGoldCollect a t0) t1
        = { handleGoldCollect a t0 with combo := 0, deadline := none } := by
      have hd : (handleGoldCollect a t0).deadline = some (t0 + comboDecay) := rfl
      simp only [fireIfDue, hd]
      rw [if_pos hgap]
    rw [hfire]
    rfl

/-- Witness for C8: from the idle initial score state, collections at
times 0, 1000 and 1999 (gaps below 2000 ms) reach combo 3 without decay,
while collections at 0 and 2500 let the timer fire in between, so the
second collection ends at combo 1. -/
theorem combo_decay_spec_witness :
    ((⟨0, 0, 0, none⟩ : AppState).deadline = none ∧
     List.Chain (fun s t => s ≤ t ∧ t < s + comboDecay) (0 : ℚ) [1000, 1999] ∧
     (runCollects ⟨0, 0, 0, none⟩ [0, 1000, 1999]).combo = 0 + 2 + 1) ∧
    ((0 : ℚ) + comboDecay ≤ 2500 ∧
     (runCollects ⟨0, 0, 0, none⟩ [0, 2500]).combo = 1) := by
  have hch : List.Chain (fun s t => s ≤ t ∧ t < s + comboDecay) (0 : ℚ) [1000, 1999] := by
    refine List.Chain.cons ⟨?_, ?_⟩ (List.Chain.cons ⟨?_, ?_⟩ List.Chain.nil) <;>
      norm_num [comboDecay]
  have hgap : (0 : ℚ) + comboDecay ≤ 2500 := by norm_num [comboDecay]
  refine ⟨⟨rfl, hch, ?_⟩, ⟨hgap, ?_⟩⟩
  · exact combo_decay_spec.2.2.2.1 ⟨0, 0, 0, none⟩ 0 [1000, 1999] rfl hch
  · exact combo_decay_spec.2.2.2.2 ⟨0, 0, 0, none⟩ 0 2500 rfl hgap

/-- C9 (frame condition of a collection event): collecting a nugget id
removes exactly the nugget entries with that id and nothing else; the
block collection, the particle collection, both id counters and the digs
counter are untouched, while gold, combo and the decay deadline change as
the score rules dictate. -/
theorem collect_frame_spec (g : Game) (id : Nat) (t : ℚ) :
    (applyOp g (Op.collect id t)).scene.blocks = g.scene.blocks ∧
    (applyOp g (Op.collect id t)).scene.particles = g.scene.particles ∧
    (applyOp g (Op.collect id t)).app.digs = g.app.digs ∧
    (applyOp g (Op.collect id t)).scene.nuggetId = g.scene.nuggetId ∧
    (applyOp g (Op.collect id t)).scene.particleId = g.scene.particleId ∧
    (applyOp g (Op.collect id t)).scene.nuggets
      = g.scene.nuggets.filter (fun n => n.id != id) ∧
    (∀ n : Nugget, n ∈ (applyOp g (Op.collect id t)).scene.nuggets ↔
      n ∈ g.scene.nuggets ∧ n.id ≠ id) ∧
    (applyOp g (Op.collect id t)).app.gold = g.app.gold + (g.app.combo / 3 + 1) ∧
    (applyOp g (Op.collect id t)).app.combo = g.app.combo + 1 ∧
    (applyOp g (Op.collect id t)).app.deadline = some (t + comboDecay) := by
  refine ⟨rfl, rfl, rfl, rfl, rfl, rfl, ?_, rfl, rfl, rfl⟩
  intro n
  show n ∈ g.scene.nuggets.filter (fun n => n.id != id) ↔ _
  rw [List.mem_filter, bne_iff_ne]

/-- C10: the gold threshold is exactly depth * 0.03 + 0.02 in exact
rational arithmetic: 0.02 and strictly positive at depth 0 (surface row
y = 0, so surface blocks can contain gold), 0.17 at depth 5 (deepest row
y = -5), positive at every nonnegative depth, and a block draws gold
exactly when its creation draw is below the threshold of its depth. -/
theorem goldChance_spec :
    goldChance 0 = 2 / 100 ∧ 0 < goldChance 0 ∧ goldChance 5 = 17 / 100 ∧
    (∀ d : ℚ, 0 ≤ d → 0 < goldChance d) ∧
    (∀ (rand : Nat → ℚ) (k : Nat) (p : IPos),
      (mkBlock rand k p).hasGold = true ↔ rand k < goldChance (-(p.2.1 : ℚ))) ∧
    (∀ (rand : Nat → ℚ) (k : Nat) (x z : Int),
      ((mkBlock rand k (x, 0, z)).hasGold = true ↔ rand k < 2 / 100)) ∧
    (∀ (rand : Nat → ℚ) (k : Nat) (x z : Int),
      ((mkBlock rand k (x, -5, z)).hasGold = true ↔ rand k < 17 / 100)) := by
  have hgen : ∀ (rand : Nat → ℚ) (k : Nat) (p : IPos),
      (mkBlock rand k p).hasGold = true ↔ rand k < goldChance (-(p.2.1 : ℚ)) := by
    intro rand k p
    show decide (rand k < goldChance (-(p.2.1 : ℚ))) = true ↔ _
    exact decide_eq_true_iff
  refine ⟨by norm_num [goldChance], by norm_num [goldChance], by norm_num [goldChance],
    ?_, hgen, ?_, ?_⟩
  · intro d hd
    have h3 : (0 : ℚ) ≤ d * (3 / 100) := mul_nonneg hd (by norm_num)
    unfold goldChance
    linarith
  · intro rand k x z
    rw [hgen rand k (x, 0, z)]
    norm_num [goldChance]
  · intro rand k x z
    rw [hgen rand k (x, -5, z)]
    norm_num [goldChance]

/-- Witness for C10: the threshold at depth 3 is positive, and a surface
block with draw 0.01 contains gold. -/
theorem goldChance_spec_witness :
    (0 ≤ (3 : ℚ) ∧ 0 < goldChance 3) ∧
    (mkBlock (fun _ => 1 / 100) 0 ((0 : Int), (0 : Int), (0 : Int))).hasGold = true := by
  constructor
  · exact ⟨by norm_num, goldChance_spec.2.2.2.1 3 (by norm_num)⟩
  · exact (goldChance_spec.2.2.2.2.2.1 (fun _ => 1 / 100) 0 0 0).2 (by norm_num)

end GoldRush
